import Mathlib

/-!
# Verification of the aws-dynamodb typed data-access layer

A shallow embedding of the repository's serialization codecs
(`src/lib/serializer.ts`) and DAO / query engine (`src/lib/dao.ts`),
together with proofs about the claims of the specification.

JavaScript runtime values are modelled by the untyped union `JsVal`
(TypeScript types are compile-time only).  JavaScript numbers that arise
in this library are decimal values, modelled as `m / 10 ^ e` together
with `NaN`; the wire protocol transmits numbers as decimal text, so the
embedding implements `String(number)` and `Number(string)` for the
decimal fragment these codecs exercise (exotic JS numeric syntax such as
exponent or hexadecimal literals never arises from the codecs and is
parsed as `NaN` here).
-/

namespace AwsDynamo

/-- A JavaScript number as used by this library: a decimal `m / 10 ^ e`,
or `NaN` (the result of converting malformed text). -/
inductive JsNum where
  | num (m : Int) (e : Nat)
  | nan
  deriving DecidableEq, Repr

/-- The character for a decimal digit `d < 10`. -/
def digitChar (d : Nat) : Char := Char.ofNat (48 + d)

/-- Numeric value of a decimal digit character. -/
def charVal (c : Char) : Nat := c.toNat - 48

/-- Is `c` one of the characters `0`–`9`? -/
def isDigitChar (c : Char) : Bool := 48 ≤ c.toNat && c.toNat ≤ 57

/-- Not a decimal point. -/
def notDot (c : Char) : Bool := c != '.'

/-- Decimal rendering of a natural number, most significant digit first. -/
def natToChars (n : Nat) : List Char :=
  if n = 0 then ['0'] else ((Nat.digits 10 n).map digitChar).reverse

/-- Fold step when reading a digit string left to right. -/
def digitStep (a : Nat) (c : Char) : Nat := 10 * a + charVal c

/-- Parse a non-empty all-digit character list; `none` otherwise. -/
def parseDigits (cs : List Char) : Option Nat :=
  if cs.isEmpty then none
  else if cs.all isDigitChar then some (cs.foldl digitStep 0)
  else none

/-- The fractional digits of `r / 10 ^ e`: the digits of `r`
left-padded with zeros to width `e` (mirrors how `String(number)`
renders e.g. `0.05`). -/
def fracChars (r e : Nat) : List Char :=
  List.replicate (e - (natToChars r).length) '0' ++ natToChars r

/-- JavaScript `String(n)` for the decimal numbers of this model. -/
def jsStringOfNum : JsNum → String
  | .nan => "NaN"
  | .num m e =>
    let a := m.natAbs
    let core := if e = 0 then natToChars a
      else natToChars (a / 10 ^ e) ++ '.' :: fracChars (a % 10 ^ e) e
    ⟨if m < 0 then '-' :: core else core⟩

/-- Parse an unsigned decimal numeral, in the forms accepted by
JavaScript `Number`: `digits`, `digits.digits`, `.digits`, `digits.`.
Returns the mantissa together with the count of fractional digits. -/
def parseUnsigned (cs : List Char) : Option (Nat × Nat) :=
  let ip := cs.takeWhile notDot
  let rest := cs.dropWhile notDot
  if rest = [] then (parseDigits ip).map (fun n => (n, 0))
  else
    let fp := rest.tail
    if fp.all notDot then
      if ip = [] then
        if fp = [] then none
        else (parseDigits fp).map (fun f => (f, fp.length))
      else
        if fp = [] then (parseDigits ip).map (fun n => (n, 0))
        else
          (parseDigits ip).bind (fun i =>
            (parseDigits fp).map (fun f => (i * 10 ^ fp.length + f, fp.length)))
    else none

/-- Interpret the result of `parseUnsigned` under an optional leading
minus sign; a failed parse is JavaScript `NaN`. -/
def signedOfParse (neg : Bool) : Option (Nat × Nat) → JsNum
  | some (m, e) => .num (if neg then -(m : Int) else (m : Int)) e
  | none => .nan

/-- JavaScript `Number(s)` on the decimal fragment: the empty string is
`0`, an optional sign precedes an unsigned decimal numeral, and anything
malformed is `NaN` (never an error). -/
def jsNumberOfChars : List Char → JsNum
  | [] => .num 0 0
  | c :: rest =>
    if c = '-' then signedOfParse true (parseUnsigned rest)
    else if c = '+' then signedOfParse false (parseUnsigned rest)
    else signedOfParse false (parseUnsigned (c :: rest))

/-- JavaScript `Number(s)` (decimal fragment). -/
def jsNumberOfString (s : String) : JsNum := jsNumberOfChars s.data

/-- The core rendered text of `a / 10 ^ e` (no sign). -/
def coreChars (a e : Nat) : List Char :=
  if e = 0 then natToChars a
  else natToChars (a / 10 ^ e) ++ '.' :: fracChars (a % 10 ^ e) e

/-! ## JavaScript runtime values

Untyped JS values as the codecs see them.  DynamoDB `AttributeValue`s
are ordinary JS objects `{tag: payload}` and are represented as `vobj`
with a single entry; items and `M` payloads are `vobj`s as well.
`undefined` is the JavaScript value `undefined`; `vdate t` is a `Date`
object whose internal time value is `t`. -/
inductive JsVal where
  | undefined
  | vstr (s : String)
  | vnum (n : JsNum)
  | vbool (b : Bool)
  | vdate (t : JsNum)
  | vlist (l : List JsVal)
  | vobj (fields : List (String × JsVal))
  deriving Repr

/-- Errors thrown while (de)serializing: a raw JS `TypeError` (property
access or method call on `undefined`), or the library's
`SerializationError` wrapper carrying the offending field name
(`src/lib/serializer.ts`, `serializeField`/`deserializeField`). -/
inductive JsErr where
  | typeError
  | serializationError (field : String)
  deriving DecidableEq, Repr

/-- JS property access `v[name]` for values on which it does not throw:
a missing property (or a non-object receiver) is `undefined`. -/
def objGet (name : String) : JsVal → JsVal
  | .vobj fields => (fields.lookup name).getD .undefined
  | _ => .undefined

/-- JS truthiness (`NaN`, `0`, `""`, `undefined` and `false` are falsy). -/
def truthy : JsVal → Bool
  | .undefined => false
  | .vbool b => b
  | .vstr s => s ≠ ""
  | .vnum (.num m _) => m ≠ 0
  | .vnum .nan => false
  | .vdate _ => true
  | .vlist _ => true
  | .vobj _ => true

/-- JS `String(v)` conversion for the values the number codec can meet.
(`Date` and object cases never arise through the typed API; they are
given placeholder renderings.) -/
def jsString : JsVal → String
  | .undefined => "undefined"
  | .vstr s => s
  | .vnum n => jsStringOfNum n
  | .vbool b => if b then "true" else "false"
  | .vdate _ => "[object Date]"
  | .vlist _ => "[object Array]"
  | .vobj _ => "[object Object]"

/-- JS `Number(v)` conversion (malformed text and objects give `NaN`,
never an error). -/
def jsToNumber : JsVal → JsNum
  | .undefined => .nan
  | .vstr s => jsNumberOfString s
  | .vnum n => n
  | .vbool b => if b then .num 1 0 else .num 0 0
  | .vdate _ => .nan
  | .vlist _ => .nan
  | .vobj _ => .nan

/-- JS ToInteger (truncation toward zero), as applied by `new Date(n)`
to its numeric argument. -/
def jsToInteger : JsNum → JsNum
  | .nan => .nan
  | .num m 0 => .num m 0
  | .num m (e + 1) => .num (m / ((10 : Int) ^ (e + 1))) 0

/-! ## Field codecs (`src/lib/serializer.ts`)

A field codec (`IDynamoSerializer`) owns one wire variant tag and
converts between a typed value and the attribute object `{tag: payload}`.
`serialize` can throw (e.g. `.map` on a non-array); `deserialize`
receives `undefined` when the field is absent from the wire map, and
property access on `undefined` throws a `TypeError`. -/
structure FieldCodec where
  tag : String
  serialize : JsVal → Except JsErr JsVal
  deserialize : Option JsVal → Except JsErr JsVal

/-- `DynamoRawSerializer.deserialize`: `value[this.type]`; throws a
`TypeError` when `value` is `undefined`. -/
def rawDeserialize (tag : String) : Option JsVal → Except JsErr JsVal
  | none => .error .typeError
  | some v => .ok (objGet tag v)

/-- `DynamoRawSerializer.serialize`: `{[this.type]: value}`. -/
def rawSerialize (tag : String) (v : JsVal) : JsVal := .vobj [(tag, v)]

/-- `DynamoRawSerializer` as a codec for a given variant tag. -/
def rawCodec (tag : String) : FieldCodec :=
  ⟨tag, fun v => .ok (rawSerialize tag v), rawDeserialize tag⟩

/-- `DynamoSerializer.string()`. -/
def stringCodec : FieldCodec := rawCodec "S"

/-- `DynamoSerializer.boolean()`. -/
def booleanCodec : FieldCodec := rawCodec "BOOL"

/-- `DynamoSerializer.stringSet()`. -/
def stringSetCodec : FieldCodec := rawCodec "SS"

/-- `DynamoSerializer.number()`: serializes `String(value)` under tag
`N`; deserializes `Number(value.N)` — note that malformed text becomes
`NaN` without an error. -/
def numberCodec : FieldCodec :=
  ⟨"N",
   fun v => .ok (rawSerialize "N" (.vstr (jsString v))),
   fun v => (rawDeserialize "N" v).map (fun p => .vnum (jsToNumber p))⟩

/-- `DynamoSerializer.date()`: `number().serialize(value.getTime())` and
`new Date(number().deserialize(value))`. -/
def dateCodec : FieldCodec :=
  ⟨"N",
   fun v => numberCodec.serialize (match v with
     | .vdate t => .vnum t
     | other => other),
   fun v => (numberCodec.deserialize v).map (fun n => match n with
     | .vnum t => .vdate (jsToInteger t)
     | _ => .vdate .nan)⟩

/-- `DynamoSerializer.optional(inner)`: absence (`value === undefined`)
maps to the `NULL` variant; `undefined` input (absent field)
deserializes to `undefined` without consulting the inner codec. -/
def optionalCodec (inner : FieldCodec) : FieldCodec :=
  ⟨"NULL",
   fun v => match v with
     | .undefined => .ok (rawSerialize "NULL" (.vbool true))
     | other => inner.serialize other,
   fun v => match v with
     | none => .ok .undefined
     | some a => if truthy (objGet "NULL" a) then .ok .undefined else inner.deserialize (some a)⟩

/-- `DynamoSerializer.list(inner)`: element-wise map under tag `L`;
calling `.map` on a non-array payload throws a `TypeError`. -/
def listCodec (inner : FieldCodec) : FieldCodec :=
  ⟨"L",
   fun v => match v with
     | .vlist l => (l.mapM inner.serialize).map (fun es => rawSerialize "L" (.vlist es))
     | _ => .error .typeError,
   fun v => match rawDeserialize "L" v with
     | .error e => .error e
     | .ok (.vlist items) => (items.mapM (fun i => inner.deserialize (some i))).map .vlist
     | .ok _ => .error .typeError⟩

/-- A record codec: an ordered mapping from field name to an optional
field codec (a field may be intentionally left unmapped, which in the
source is an entry whose value is `undefined`), plus the caller-supplied
construction function applied to the accumulated initializer. -/
structure RecordCodec where
  serializers : List (String × Option FieldCodec)
  factory : List (String × JsVal) → JsVal

/-- `DynamoSerializer.serializeField`: `this.serializers[field]?.serialize(value)`
with any thrown error rewrapped as a `SerializationError` naming the
field; a missing codec yields `undefined` (`none`). -/
def serializeField (f : String) (codec? : Option FieldCodec) (v : JsVal) :
    Except JsErr (Option JsVal) :=
  match codec? with
  | none => .ok none
  | some c =>
    match c.serialize v with
    | .ok a => .ok (some a)
    | .error _ => .error (.serializationError f)

/-- `DynamoSerializer.deserializeField`: `this.serializers[field]?.deserialize(value)`
with any thrown error rewrapped as a `SerializationError` naming the
field; a missing codec yields `undefined`. -/
def deserializeField (f : String) (codec? : Option FieldCodec) (v : Option JsVal) :
    Except JsErr JsVal :=
  match codec? with
  | none => .ok .undefined
  | some c =>
    match c.deserialize v with
    | .ok r => .ok r
    | .error _ => .error (.serializationError f)

/-- `DynamoSerializer.assign`: skip `undefined` values, otherwise add
the property (in iteration order). -/
def assign (acc : List (String × JsVal)) (f : String) (v : JsVal) :
    List (String × JsVal) :=
  match v with
  | .undefined => acc
  | other => acc ++ [(f, other)]

/-- Reading `attrs.M[field]` : property access on the `M` payload;
throws a `TypeError` if the payload is `undefined` (wrong variant),
yields `undefined` (`none`) when the entry is simply absent. -/
def payloadIndex (mv : JsVal) (f : String) : Except JsErr (Option JsVal) :=
  match mv with
  | .undefined => .error .typeError
  | .vobj fields => .ok (fields.lookup f)
  | _ => .ok none

/-- `DynamoSerializer.serialize`: fold the fields in declaration order,
serializing `entity[field]` through the field codec, skipping
`undefined` results, and wrap the collected map in the `M` variant. -/
def RecordCodec.serialize (rc : RecordCodec) (entity : JsVal) : Except JsErr JsVal := do
  let m ← rc.serializers.foldlM (fun acc p => do
    let r ← serializeField p.1 p.2 (objGet p.1 entity)
    pure (match r with
      | none => acc
      | some av => acc ++ [(p.1, av)])) ([] : List (String × JsVal))
  pure (rawSerialize "M" (.vobj m))

/-- One step of `DynamoSerializer.deserialize`’s reduce: read
`attrs.M[field]`, decode it through the field codec, and `assign`
(skipping `undefined`). -/
def initStep (a : JsVal) (acc : List (String × JsVal))
    (p : String × Option FieldCodec) : Except JsErr (List (String × JsVal)) := do
  let v ← payloadIndex (objGet "M" a) p.1
  let r ← deserializeField p.1 p.2 v
  pure (assign acc p.1 r)

/-- The initializer built by `DynamoSerializer.deserialize`’s reduce. -/
def buildInit (sers : List (String × Option FieldCodec)) (a : JsVal) :
    Except JsErr (List (String × JsVal)) :=
  sers.foldlM (initStep a) []

/-- `DynamoSerializer.deserialize`: build the initializer and apply the
construction function.  Property access `attrs.M` on an `undefined`
argument throws. -/
def RecordCodec.deserialize (rc : RecordCodec) (attrs : Option JsVal) :
    Except JsErr JsVal :=
  match attrs with
  | none => .error .typeError
  | some a => (buildInit rc.serializers a).map rc.factory

/-- `DynamoSerializer.typeOf`: the wire variant tag of a field's codec. -/
def RecordCodec.typeOf (rc : RecordCodec) (f : String) : Option String :=
  ((rc.serializers.lookup f).join).map (·.tag)

/-- `DynamoSerializer.subSerializer`: a narrowing view over the given
keys; each key is assigned the parent's codec for it (possibly
`undefined`), and the construction function is the identity. -/
def RecordCodec.subSerializer (rc : RecordCodec) (keys : List String) : RecordCodec :=
  ⟨keys.map (fun k => (k, (rc.serializers.lookup k).join)), fun init => .vobj init⟩

/-- `DynamoSerializer.serializeField` looked up on a record codec. -/
def RecordCodec.serializeFieldAt (rc : RecordCodec) (f : String) (v : JsVal) :
    Except JsErr (Option JsVal) :=
  serializeField f ((rc.serializers.lookup f).join) v

/-- `const prefix = (name) => "dynamo_" + name` — the fixed namespace for
every engine-introduced expression placeholder. -/
def pfx (name : String) : String := "dynamo_" ++ name

/-- A key specification: one field name (partition key) or a pair
(partition key, sort key). -/
inductive KeySpec where
  | single (pk : String)
  | pair (pk sk : String)
  deriving DecidableEq, Repr

/-- `arrayable`: wrap a plain key in a singleton array. -/
def arrayable : KeySpec → List String
  | .single pk => [pk]
  | .pair pk sk => [pk, sk]

/-- The sort-key condition matchers. -/
inductive Matcher where
  | eq | lt | le | gt | ge | between | begins_with
  deriving DecidableEq, Repr

/-- The literal string of a matcher (in the source a matcher *is* its
string). -/
def Matcher.render : Matcher → String
  | .eq => "="
  | .lt => "<"
  | .le => "<="
  | .gt => ">"
  | .ge => ">="
  | .between => "between"
  | .begins_with => "begins_with"

/-- `conditionToString` from `src/lib/dao.ts`. -/
def conditionToString (matcher : Matcher) (name : String) : String :=
  if matcher = .begins_with then
    "begins_with(" ++ name ++ ", :" ++ pfx "value" ++ ")"
  else if matcher = .between then
    name ++ " between :" ++ pfx "from" ++ " and :" ++ pfx "to"
  else
    name ++ " " ++ matcher.render ++ " :" ++ pfx "value"

/-- A sort-key condition: for `between` the value is a two-element
array (`value[0]`/`value[1]` are read), otherwise a single value. -/
structure Condition where
  matcher : Matcher
  value : JsVal

/-- JS array indexing `v[i]` (out of range, or a non-array, is
`undefined`; unreachable through the typed API). -/
def jsIdx (v : JsVal) (i : Nat) : JsVal :=
  match v with
  | .vlist l => l.getD i .undefined
  | _ => .undefined

/-- `IndexType` from `src/lib/dao.ts`. -/
inductive IndexType where
  | LOCAL | GLOBAL
  deriving DecidableEq, Repr

/-- The state of a `DynamoIndex` (the `dynamoDb` handle itself carries
no data relevant to the claims and is omitted). -/
structure DynamoIndexM where
  tableName : String
  serializer : RecordCodec
  keyspec : KeySpec
  type : IndexType
  projection : Option (List String)
  name : Option String

/-- `DynamoIndex.serializeValue`: `this.serializer.serializeField(field, value)!`
(the `!` is a compile-time assertion only; the possibly-`undefined`
result flows through). -/
def DynamoIndexM.serializeValue (idx : DynamoIndexM) (f : String) (v : JsVal) :
    Except JsErr (Option JsVal) :=
  idx.serializer.serializeFieldAt f v

/-- `DynamoIndex.partitionKey`. -/
def DynamoIndexM.partitionKey (idx : DynamoIndexM) : String :=
  match idx.keyspec with
  | .single pk => pk
  | .pair pk _ => pk

/-- `DynamoIndex.sortKey`: `(this.keyspec as [PK, SK])[1]`.  For a
single-key spec this JS indexing yields no field name; the type system
forbids a sort condition there, so the case is unreachable. -/
def DynamoIndexM.sortKey (idx : DynamoIndexM) : String :=
  match idx.keyspec with
  | .single _ => ""
  | .pair _ sk => sk

/-- `DynamoIndex.attributeValues`: the value bindings contributed by a
sort-key condition. -/
def DynamoIndexM.attributeValues (idx : DynamoIndexM) (c : Condition) :
    Except JsErr (List (String × Option JsVal)) :=
  if c.matcher = .between then do
    let f ← idx.serializeValue idx.sortKey (jsIdx c.value 0)
    let t ← idx.serializeValue idx.sortKey (jsIdx c.value 1)
    pure [(":" ++ pfx "from", f), (":" ++ pfx "to", t)]
  else do
    let v ← idx.serializeValue idx.sortKey c.value
    pure [(":" ++ pfx "value", v)]

/-- The `Query` request as built by `DynamoIndex.lookup` (the request
fields the engine populates). -/
structure QueryReq where
  TableName : String
  IndexName : Option String
  ExclusiveStartKey : Option JsVal
  Limit : Option Nat
  ExpressionAttributeNames : List (String × String)
  ExpressionAttributeValues : List (String × Option JsVal)
  KeyConditionExpression : String

/-- The options of `lookup` that shape the built request (the
`overwrite` hook defaults to the identity and `onMore` does not affect
the request; both are handled at the fetch level). -/
structure LookupOptions where
  limit : Option Nat
  startFrom : Option JsVal
  condition : Option Condition

/-- The sort-key entry of `ExpressionAttributeNames`, present exactly
when a condition is supplied (the `...(options?.condition ? {...} : {})`
spread). -/
def condNames (idx : DynamoIndexM) : Option Condition → List (String × String)
  | some _ => [("#" ++ pfx "sk", idx.sortKey)]
  | none => []

/-- The condition's contribution to `ExpressionAttributeValues`. -/
def condValsE (idx : DynamoIndexM) : Option Condition → Except JsErr (List (String × Option JsVal))
  | some c => idx.attributeValues c
  | none => pure []

/-- The built `KeyConditionExpression`. -/
def kceOf (pkCondition : String) : Option Condition → String
  | some c => pkCondition ++ " and " ++ conditionToString c.matcher ("#" ++ pfx "sk")
  | none => pkCondition

/-- `DynamoIndex.lookup`: the `Query` request built and passed to the
`overwrite` hook (identity by default) before dispatch. -/
def DynamoIndexM.lookup (idx : DynamoIndexM) (partitionKeyVal : JsVal)
    (opts : LookupOptions) : Except JsErr QueryReq := do
  let pkCondition := "#" ++ pfx "pk" ++ " = :" ++ pfx "pk"
  let pkv ← idx.serializeValue idx.partitionKey partitionKeyVal
  let condVals ← condValsE idx opts.condition
  pure
    { TableName := idx.tableName
      IndexName := idx.name
      ExclusiveStartKey := opts.startFrom
      Limit := opts.limit
      ExpressionAttributeNames :=
        ("#" ++ pfx "pk", idx.partitionKey) :: condNames idx opts.condition
      ExpressionAttributeValues := (":" ++ pfx "pk", pkv) :: condVals
      KeyConditionExpression := kceOf pkCondition opts.condition }

/-- `DynamoDao.localIndex`: derive a local secondary index view with an
optional projection; the sub-codec is built over the sanitized
projection followed by the key fields. -/
def DynamoIndexM.localIndex (dao : DynamoIndexM) (name : String) (spec : String)
    (projection : Option (List String)) : DynamoIndexM :=
  let pk := match dao.keyspec with
    | .single p => p
    | .pair p _ => p
  let keys := arrayable dao.keyspec ++ [spec]
  let sanitizedProjection :=
    (projection.getD (dao.serializer.serializers.map (·.1))).filter
      (fun n => !(keys.contains n))
  let serializer := dao.serializer.subSerializer (sanitizedProjection ++ keys)
  ⟨dao.tableName, serializer, .pair pk spec, .LOCAL,
    (match projection with
      | some _ => some sanitizedProjection
      | none => none), some name⟩

/-- `chunksOf`: consume the sequence into chunks of `chunkSize`
(`chunkSize = 0` consumes everything into one chunk); an empty chunk is
never yielded. -/
def chunksOf : List α → Nat → List (List α)
  | [], _ => []
  | x :: xs, n =>
    (if n = 0 then x :: xs else (x :: xs).take n)
      :: chunksOf (if n = 0 then [] else (x :: xs).drop n) n
termination_by l _ => l.length
decreasing_by
  by_cases hn : n = 0
  · simp [hn]
  · rw [dif_neg hn]
    simp only [List.length_drop, List.length_cons]
    have hn1 : 1 ≤ n := Nat.one_le_iff_ne_zero.mpr hn
    omega

/-- `DynamoDao.persist`: one `batchWriteItem` call per chunk of 25, in
order; each call carries the chunk's serialized items
(`serializer.serialize(entity).M`). -/
def persistRequests (rc : RecordCodec) (entities : List JsVal) :
    Except JsErr (List (List JsVal)) :=
  (chunksOf entities 25).mapM (fun chunk =>
    chunk.mapM (fun entity => (rc.serialize entity).map (objGet "M")))

/-- One backend page response. -/
structure Page where
  items : List JsVal
  lastEvaluatedKey : Option JsVal

/-- The observable outcome of a `fetch` call: the values yielded, the
continuation marker delivered to the *caller-supplied* `onMore`
callback (if it was invoked), and the `(ExclusiveStartKey, Limit)`
pair of every backend request issued, in order. -/
structure FetchOut (α : Type) where
  items : List α
  onMore : Option JsVal
  requests : List (Option JsVal × Option Nat)

/-- `DynamoIndex.fetch`, driven by the successive backend page
responses.  `top` records whether the `onMore` argument of this call is
the caller's callback (`true`) or the default no-op — the recursive
call passes only `operation`, so `onMore` falls back to the no-op there
(`fetch({...}, operation)` in the source).  An exhausted `pages` list
models a backend response with no items and no continuation. -/
def fetchGo (deser : JsVal → α) (esk : Option JsVal) (limit : Option Nat)
    (pages : List Page) (top : Bool) : FetchOut α :=
  match pages with
  | [] => ⟨[], none, [(esk, limit)]⟩
  | page :: rest =>
    let yielded := page.items.map deser
    match page.lastEvaluatedKey with
    | none => ⟨yielded, none, [(esk, limit)]⟩
    | some k =>
      match limit with
      | none =>
        let sub := fetchGo deser (some k) none rest false
        ⟨yielded ++ sub.items, none, (esk, none) :: sub.requests⟩
      | some l =>
        if page.items.length < l then
          let sub := fetchGo deser (some k) (some (l - page.items.length)) rest false
          ⟨yielded ++ sub.items, none, (esk, some l) :: sub.requests⟩
        else
          ⟨yielded, if top then some k else none, [(esk, some l)]⟩

/-- A `fetch` call as issued by `list`/`lookup`: items are decoded
through the record codec (`this.serializer.deserialize({M: item})`) and
the caller's `onMore` is in effect at the top level. -/
def DynamoIndexM.fetchRun (idx : DynamoIndexM) (esk : Option JsVal) (limit : Option Nat)
    (pages : List Page) : FetchOut (Except JsErr JsVal) :=
  fetchGo (fun item => idx.serializer.deserialize (some (rawSerialize "M" item)))
    esk limit pages true

/-- The `Product` record codec of the test suite: `type` (string),
`code` (number), `price` (number); the construction function copies the
three attributes (an absent attribute becomes an `undefined` property,
which the object model drops). -/
def productCodec : RecordCodec :=
  ⟨[("type", some stringCodec), ("code", some numberCodec), ("price", some numberCodec)],
   fun init => .vobj (assign (assign (assign []
     "type" ((init.lookup "type").getD .undefined))
     "code" ((init.lookup "code").getD .undefined))
     "price" ((init.lookup "price").getD .undefined))⟩

/-- `new DynamoDao(dynamoDb, "ProductTable", productSerializer, ["type", "code"])`. -/
def productDao : DynamoIndexM :=
  ⟨"ProductTable", productCodec, .pair "type" "code", .GLOBAL, none, none⟩

/-- A `Product` entity value. -/
def productEntity (q : String × JsNum × JsNum) : JsVal :=
  .vobj [("type", .vstr q.1), ("code", .vnum q.2.1), ("price", .vnum q.2.2)]

/-- The serialized wire item of a `Product` entity. -/
def productItem (q : String × JsNum × JsNum) : JsVal :=
  .vobj [("type", rawSerialize "S" (.vstr q.1)),
         ("code", rawSerialize "N" (.vstr (jsStringOfNum q.2.1))),
         ("price", rawSerialize "N" (.vstr (jsStringOfNum q.2.2)))]

/-- All pages except possibly the last carry a continuation marker. -/
def chained : List Page → Prop
  | [] => True
  | [_] => True
  | p :: q :: rest => p.lastEvaluatedKey.isSome = true ∧ chained (q :: rest)

/-- Witness for C6 at a concrete list of 26 products. -/
def sampleProducts : List (String × JsNum × JsNum) :=
  List.replicate 26 ("soap", .num 1 0, .num 25 1)

/-- `deserialize(serialize(v))` recovers `v` (the serialize result is
fed straight back to deserialize). -/
def roundTrip (c : FieldCodec) (v : JsVal) : Prop :=
  (c.serialize v).bind (fun w => c.deserialize (some w)) = .ok v

/-- A four-field parent codec used to exercise the projection claim. -/
def wideCodec : RecordCodec :=
  ⟨[("type", some stringCodec), ("code", some numberCodec),
    ("price", some numberCodec), ("label", some stringCodec)],
   fun init => .vobj init⟩

/-- A DAO over `wideCodec` keyed by `["type", "code"]`. -/
def wideDao : DynamoIndexM :=
  ⟨"WideTable", wideCodec, .pair "type" "code", .GLOBAL, none, none⟩

/-- A concrete wire item carrying all four fields. -/
def wideItemFields : List (String × JsVal) :=
  [("label", rawSerialize "S" (.vstr "x")), ("type", rawSerialize "S" (.vstr "t")),
   ("code", rawSerialize "N" (.vstr "1")), ("price", rawSerialize "N" (.vstr "2"))]

/-! ## Round-trip of the decimal text representation -/

theorem digitChar_spec : ∀ d, d < 10 →
    charVal (digitChar d) = d ∧ isDigitChar (digitChar d) = true ∧
    notDot (digitChar d) = true := by decide

theorem foldl_digitStep_map (l : List Nat) (hl : ∀ d ∈ l, d < 10) (a : Nat) :
    ((l.map digitChar).reverse).foldl digitStep a
      = a * 10 ^ l.length + Nat.ofDigits 10 l := by
  induction l generalizing a with
  | nil => simp [Nat.ofDigits_nil]
  | cons d t ih =>
    have hd : d < 10 := hl d (List.mem_cons_self d t)
    have ht : ∀ x ∈ t, x < 10 := fun x hx => hl x (List.mem_cons_of_mem d hx)
    have hv : charVal (digitChar d) = d := (digitChar_spec d hd).1
    simp only [List.map_cons, List.reverse_cons, List.foldl_append, List.foldl_cons,
      List.foldl_nil, ih ht a, Nat.ofDigits_cons, List.length_cons, digitStep, hv]
    ring

theorem natToChars_ne_nil (n : Nat) : natToChars n ≠ [] := by
  unfold natToChars
  by_cases h : n = 0
  · simp [h]
  · have hne := (Nat.digits_ne_nil_iff_ne_zero (b := 10)).mpr h
    simp only [h, if_false]
    intro hcon
    rw [List.reverse_eq_nil_iff, List.map_eq_nil_iff] at hcon
    exact hne hcon

theorem natToChars_all_digits (n : Nat) : (natToChars n).all isDigitChar = true := by
  unfold natToChars
  by_cases h : n = 0
  · simp [h]; decide
  · simp only [h, if_false, List.all_eq_true, List.mem_reverse, List.mem_map]
    rintro c ⟨d, hd, rfl⟩
    exact (digitChar_spec d (Nat.digits_lt_base (by norm_num) hd)).2.1

theorem natToChars_all_notDot (n : Nat) : (natToChars n).all notDot = true := by
  unfold natToChars
  by_cases h : n = 0
  · simp [h]; decide
  · simp only [h, if_false, List.all_eq_true, List.mem_reverse, List.mem_map]
    rintro c ⟨d, hd, rfl⟩
    exact (digitChar_spec d (Nat.digits_lt_base (by norm_num) hd)).2.2

theorem natToChars_isEmpty (n : Nat) : (natToChars n).isEmpty = false := by
  cases hc : natToChars n with
  | nil => exact absurd hc (natToChars_ne_nil n)
  | cons a l => simp [List.isEmpty]

theorem foldl_natToChars (n : Nat) : (natToChars n).foldl digitStep 0 = n := by
  unfold natToChars
  by_cases h : n = 0
  · subst h; decide
  · simp only [h, if_false]
    rw [foldl_digitStep_map (Nat.digits 10 n)
      (fun d hd => Nat.digits_lt_base (by norm_num) hd) 0]
    simp [Nat.ofDigits_digits]

theorem parseDigits_natToChars (n : Nat) : parseDigits (natToChars n) = some n := by
  simp [parseDigits, natToChars_isEmpty n, natToChars_all_digits n, foldl_natToChars n]

theorem foldl_digitStep_replicate_zero (k : Nat) :
    (List.replicate k '0').foldl digitStep 0 = 0 := by
  induction k with
  | zero => rfl
  | succ k ih =>
    rw [List.replicate_succ, List.foldl_cons]
    have h0 : digitStep 0 '0' = 0 := by decide
    rw [h0, ih]

theorem natToChars_length_le (r e : Nat) (hr : r < 10 ^ e) (he : 1 ≤ e) :
    (natToChars r).length ≤ e := by
  unfold natToChars
  by_cases h : r = 0
  · simpa [h] using he
  · simp only [h, if_false, List.length_reverse, List.length_map]
    rw [Nat.digits_len 10 r (by norm_num) h]
    have := Nat.log_lt_of_lt_pow h hr
    omega

theorem fracChars_length (r e : Nat) (hr : r < 10 ^ e) (he : 1 ≤ e) :
    (fracChars r e).length = e := by
  have hle := natToChars_length_le r e hr he
  simp only [fracChars, List.length_append, List.length_replicate]
  omega

theorem fracChars_ne_nil (r e : Nat) (hr : r < 10 ^ e) (he : 1 ≤ e) :
    fracChars r e ≠ [] := by
  intro hcon
  have := fracChars_length r e hr he
  rw [hcon] at this
  simp at this
  omega

theorem replicate_zero_all_digits (k : Nat) :
    (List.replicate k '0').all isDigitChar = true := by
  rw [List.all_eq_true]
  intro c hc
  rw [List.eq_of_mem_replicate hc]
  decide

theorem replicate_zero_all_notDot (k : Nat) :
    (List.replicate k '0').all notDot = true := by
  rw [List.all_eq_true]
  intro c hc
  rw [List.eq_of_mem_replicate hc]
  decide

theorem fracChars_all_digits (r e : Nat) : (fracChars r e).all isDigitChar = true := by
  rw [fracChars, List.all_append, replicate_zero_all_digits, natToChars_all_digits]
  rfl

theorem fracChars_all_notDot (r e : Nat) : (fracChars r e).all notDot = true := by
  rw [fracChars, List.all_append, replicate_zero_all_notDot, natToChars_all_notDot]
  rfl

theorem parseDigits_fracChars (r e : Nat) (hr : r < 10 ^ e) (he : 1 ≤ e) :
    parseDigits (fracChars r e) = some r := by
  have hne : (fracChars r e).isEmpty = false := by
    cases hc : fracChars r e with
    | nil => exact absurd hc (fracChars_ne_nil r e hr he)
    | cons a l => simp [List.isEmpty]
  simp only [parseDigits, hne, fracChars_all_digits r e, Bool.false_eq_true, if_false, if_true]
  congr 1
  rw [fracChars, List.foldl_append, foldl_digitStep_replicate_zero, foldl_natToChars]

/-- A list that contains no `'.'` is untouched by the split at the dot. -/
theorem takeWhile_all_notDot (l : List Char) (h : l.all notDot = true) :
    l.takeWhile notDot = l ∧ l.dropWhile notDot = [] := by
  induction l with
  | nil => exact ⟨rfl, rfl⟩
  | cons a t ih =>
    rw [List.all_cons, Bool.and_eq_true] at h
    obtain ⟨ht, hd⟩ := ih h.2
    simp [List.takeWhile_cons, List.dropWhile_cons, h.1, ht, hd]

/-- Splitting `xs ++ '.' :: ys` at the first dot when `xs` has no dot. -/
theorem splitAtDot (xs ys : List Char) (h : xs.all notDot = true) :
    (xs ++ '.' :: ys).takeWhile notDot = xs ∧
    (xs ++ '.' :: ys).dropWhile notDot = '.' :: ys := by
  induction xs with
  | nil => constructor <;> simp [List.takeWhile_cons, List.dropWhile_cons, notDot]
  | cons a t ih =>
    rw [List.all_cons, Bool.and_eq_true] at h
    obtain ⟨ht, hd⟩ := ih h.2
    simp [List.cons_append, List.takeWhile_cons, List.dropWhile_cons, h.1, ht, hd]

theorem parseUnsigned_natToChars (n : Nat) : parseUnsigned (natToChars n) = some (n, 0) := by
  obtain ⟨ht, hd⟩ := takeWhile_all_notDot (natToChars n) (natToChars_all_notDot n)
  unfold parseUnsigned
  simp [ht, hd, parseDigits_natToChars n]

theorem parseUnsigned_core (q r e : Nat) (hr : r < 10 ^ e) (he : 1 ≤ e) :
    parseUnsigned (natToChars q ++ '.' :: fracChars r e) = some (q * 10 ^ e + r, e) := by
  obtain ⟨ht, hd⟩ := splitAtDot (natToChars q) (fracChars r e) (natToChars_all_notDot q)
  unfold parseUnsigned
  simp only [ht, hd, List.tail_cons, List.cons_ne_nil, if_false, fracChars_all_notDot r e, if_true,
    natToChars_ne_nil q, fracChars_ne_nil r e hr he, parseDigits_natToChars q,
    parseDigits_fracChars r e hr he, fracChars_length r e hr he, Option.some_bind,
    Option.map_some']

theorem isDigitChar_ne_sign (c : Char) (h : isDigitChar c = true) :
    c ≠ '-' ∧ c ≠ '+' := by
  constructor <;> rintro rfl <;> exact absurd h (by decide)

theorem jsStringOfNum_data (m : Int) (e : Nat) :
    (jsStringOfNum (.num m e)).data
      = if m < 0 then '-' :: coreChars m.natAbs e else coreChars m.natAbs e := by
  by_cases hm : m < 0 <;> simp [jsStringOfNum, coreChars, hm]

theorem parseUnsigned_coreChars (a e : Nat) :
    parseUnsigned (coreChars a e) = some (a, e) := by
  unfold coreChars
  by_cases h0 : e = 0
  · rw [if_pos h0, parseUnsigned_natToChars a, h0]
  · have he : 1 ≤ e := Nat.one_le_iff_ne_zero.mpr h0
    have hr : a % 10 ^ e < 10 ^ e := Nat.mod_lt _ (Nat.pos_pow_of_pos e (by norm_num))
    rw [if_neg h0, parseUnsigned_core (a / 10 ^ e) (a % 10 ^ e) e hr he]
    congr 2
    exact Nat.div_add_mod' a (10 ^ e)

theorem coreChars_head_digit (a e : Nat) (c : Char) (cs : List Char)
    (hc : coreChars a e = c :: cs) : isDigitChar c = true := by
  unfold coreChars at hc
  by_cases h0 : e = 0
  · rw [if_pos h0] at hc
    have := natToChars_all_digits a
    rw [hc, List.all_cons, Bool.and_eq_true] at this
    exact this.1
  · rw [if_neg h0] at hc
    cases hip : natToChars (a / 10 ^ e) with
    | nil => exact absurd hip (natToChars_ne_nil _)
    | cons i it =>
      rw [hip, List.cons_append, List.cons.injEq] at hc
      have := natToChars_all_digits (a / 10 ^ e)
      rw [hip, List.all_cons, Bool.and_eq_true] at this
      exact hc.1 ▸ this.1

theorem coreChars_ne_nil (a e : Nat) : coreChars a e ≠ [] := by
  unfold coreChars
  by_cases h0 : e = 0
  · rw [if_pos h0]; exact natToChars_ne_nil a
  · rw [if_neg h0]
    cases hip : natToChars (a / 10 ^ e) with
    | nil => exact absurd hip (natToChars_ne_nil _)
    | cons i it => simp

/-- Round trip of the decimal text representation: parsing the rendered
text of any decimal number recovers it exactly (`Number(String(v)) == v`). -/
theorem jsNumber_jsString_roundTrip (m : Int) (e : Nat) :
    jsNumberOfString (jsStringOfNum (.num m e)) = .num m e := by
  rw [jsNumberOfString, jsStringOfNum_data m e]
  by_cases hm : m < 0
  · rw [if_pos hm, jsNumberOfChars, if_pos rfl, parseUnsigned_coreChars m.natAbs e,
      signedOfParse]
    have : (-(m.natAbs : Int)) = m := by omega
    rw [if_pos rfl, this]
  · rw [if_neg hm]
    cases hc : coreChars m.natAbs e with
    | nil => exact absurd hc (coreChars_ne_nil m.natAbs e)
    | cons c cs =>
      obtain ⟨hne1, hne2⟩ := isDigitChar_ne_sign c (coreChars_head_digit m.natAbs e c cs hc)
      rw [jsNumberOfChars, if_neg hne1, if_neg hne2, ← hc, parseUnsigned_coreChars m.natAbs e,
        signedOfParse]
      have : ((m.natAbs : Int)) = m := by omega
      rw [if_neg (by simp), this]

theorem productCodec_serialize (q : String × JsNum × JsNum) :
    productCodec.serialize (productEntity q) = .ok (rawSerialize "M" (productItem q)) := rfl

/-! ## Chunking lemmas -/

theorem chunksOf_nil (n : Nat) : chunksOf ([] : List α) n = [] := by
  simp [chunksOf]

theorem chunksOf_cons (x : α) (xs : List α) (n : Nat) (hn : n ≠ 0) :
    chunksOf (x :: xs) n = (x :: xs).take n :: chunksOf ((x :: xs).drop n) n := by
  rw [chunksOf]
  rw [if_neg hn, if_neg hn]

theorem chunksOf_flatten (l : List α) (n : Nat) : (chunksOf l n).flatten = l := by
  induction l, n using chunksOf.induct with
  | case1 n => rw [chunksOf_nil]; rfl
  | case2 x xs n ih =>
    by_cases hn : n = 0
    · subst hn
      rw [chunksOf]
      simp [chunksOf_nil]
    · rw [chunksOf_cons x xs n hn, List.flatten_cons]
      rw [dif_neg hn] at ih
      rw [ih, List.take_append_drop]

theorem chunksOf_length_le (l : List α) (n : Nat) (hn : n ≠ 0) :
    ∀ c ∈ chunksOf l n, c.length ≤ n := by
  induction l, n using chunksOf.induct with
  | case1 n => intro c hc; rw [chunksOf_nil] at hc; cases hc
  | case2 x xs n ih =>
    intro c hc
    rw [chunksOf_cons x xs n hn] at hc
    rcases List.mem_cons.mp hc with h | h
    · subst h; exact List.length_take_le n (x :: xs)
    · rw [dif_neg hn] at ih
      exact ih hn c h

theorem chunksOf_ne_nil (l : List α) (n : Nat) : ∀ c ∈ chunksOf l n, c ≠ [] := by
  induction l, n using chunksOf.induct with
  | case1 n => intro c hc; rw [chunksOf_nil] at hc; cases hc
  | case2 x xs n ih =>
    intro c hc
    by_cases hn : n = 0
    · subst hn
      rw [chunksOf] at hc
      have hc2 : c = x :: xs := by simpa [chunksOf_nil] using hc
      subst hc2
      exact List.cons_ne_nil x xs
    · rw [chunksOf_cons x xs n hn] at hc
      rcases List.mem_cons.mp hc with h | h
      · subst h
        cases n with
        | zero => exact absurd rfl hn
        | succ n => simp
      · rw [dif_neg hn] at ih
        exact ih c h

theorem chunksOf_26 (l : List α) (h : l.length = 26) :
    chunksOf l 25 = [l.take 25, l.drop 25] := by
  cases l with
  | nil => simp at h
  | cons x xs =>
    rw [chunksOf_cons x xs 25 (by norm_num)]
    have h1 : ((x :: xs).drop 25).length = 1 := by
      rw [List.length_drop, h]
    cases hd : (x :: xs).drop 25 with
    | nil => rw [hd] at h1; simp at h1
    | cons y ys =>
      have h2 : ys = [] := by
        rw [hd] at h1
        simpa using h1
      subst h2
      have h3 : chunksOf [y] 25 = [[y]] := by
        rw [chunksOf_cons y [] 25 (by norm_num)]
        simp [chunksOf_nil]
      rw [h3]

theorem serialize_item_ok (q : String × JsNum × JsNum) :
    (productCodec.serialize (productEntity q)).map (objGet "M") = Except.ok (productItem q) := rfl

/-- Serializing a list of products item-wise always succeeds. -/
theorem mapM_serialize_products (qs : List (String × JsNum × JsNum)) :
    (qs.map productEntity).mapM
        (fun entity => (productCodec.serialize entity).map (objGet "M"))
      = .ok (qs.map productItem) := by
  induction qs with
  | nil => rfl
  | cons q t ih =>
    rw [List.map_cons, List.mapM_cons]
    simp only [serialize_item_ok q, ih]
    rfl

theorem fetch_unbounded_items (pages : List Page) (hc : chained pages)
    {α : Type} (deser : JsVal → α) (esk : Option JsVal) (t : Bool) :
    (fetchGo deser esk none pages t).items
      = (pages.map (fun p => p.items.map deser)).flatten := by
  induction pages generalizing esk t with
  | nil => rfl
  | cons p rest ih =>
    cases hk : p.lastEvaluatedKey with
    | none =>
      cases rest with
      | nil => simp [fetchGo, hk]
      | cons q rest2 =>
        rw [chained] at hc
        rw [hk] at hc
        simp at hc
    | some k =>
      have hrest : chained rest := by
        cases rest with
        | nil => trivial
        | cons q rest2 => exact hc.2
      simp only [fetchGo, hk, List.map_cons, List.flatten_cons]
      rw [ih hrest (some k) false]

/-- **C3** (code bug): deserializing a Number-variant wire value whose
text payload is not numeric does **not** fail — `Number("abc")` silently
yields `NaN`, so the codec succeeds with a `NaN` value instead of
throwing. -/
theorem claim_C3_number_silent_nan :
    numberCodec.deserialize (some (rawSerialize "N" (.vstr "abc")))
      = .ok (.vnum .nan) := rfl

/-- **C5** (code bug): when a result-count limit is only reached on the
second page, the caller-supplied `onMore` callback is **not** invoked
with the continuation marker — the recursive page fetch passes only the
operation, so `onMore` falls back to the default no-op (first
conjunct: two pages of one item each with markers, limit 2, top-level
`onMore` never called).  When the limit is satisfied by the first page,
`onMore` does receive the marker (second conjunct). -/
theorem claim_C5_onMore_dropped_on_recursion :
    fetchGo (fun v => v) none (some 2)
        [⟨[.vstr "a"], some (.vstr "k1")⟩, ⟨[.vstr "b"], some (.vstr "k2")⟩] true
      = ⟨[.vstr "a", .vstr "b"], none, [(none, some 2), (some (.vstr "k1"), some 1)]⟩
    ∧ fetchGo (fun v => v) none (some 1) [⟨[.vstr "a"], some (.vstr "k1")⟩] true
      = ⟨[.vstr "a"], some (.vstr "k1"), [(none, some 1)]⟩ :=
  ⟨rfl, rfl⟩

/-- **C6**: persisting 26 records issues exactly 2 bulk-write calls, the
first carrying 25 put items and the second 1, concatenating back to the
input in order; in general no chunk ever exceeds the chunk size and the
chunks flatten to the input sequence. -/
theorem claim_C6_persist_chunking (ps : List (String × JsNum × JsNum))
    (h : ps.length = 26) :
    persistRequests productCodec (ps.map productEntity)
        = .ok [(ps.take 25).map productItem, (ps.drop 25).map productItem]
      ∧ ((ps.take 25).map productItem).length = 25
      ∧ ((ps.drop 25).map productItem).length = 1
      ∧ (ps.take 25).map productItem ++ (ps.drop 25).map productItem = ps.map productItem
      ∧ (∀ (l : List JsVal) (n : Nat), n ≠ 0 → ∀ c ∈ chunksOf l n, c.length ≤ n)
      ∧ (∀ l : List JsVal, (chunksOf l 25).flatten = l) := by
  have hlen : (ps.map productEntity).length = 26 := by rw [List.length_map, h]
  have hchunks : chunksOf (ps.map productEntity) 25
      = [(ps.take 25).map productEntity, (ps.drop 25).map productEntity] := by
    rw [chunksOf_26 _ hlen, ← List.map_take, ← List.map_drop]
  refine ⟨?_, ?_, ?_, ?_, ?_, ?_⟩
  · rw [persistRequests, hchunks]
    simp only [List.mapM_cons, List.mapM_nil, mapM_serialize_products]
    rfl
  · simp [List.length_take, h]
  · simp [List.length_drop, h]
  · rw [← List.map_append, List.take_append_drop]
  · exact fun l n hn => chunksOf_length_le l n hn
  · exact fun l => chunksOf_flatten l 25

theorem claim_C6_persist_chunking_witness :
    sampleProducts.length = 26
    ∧ persistRequests productCodec (sampleProducts.map productEntity)
        = .ok [(sampleProducts.take 25).map productItem,
               (sampleProducts.drop 25).map productItem] :=
  ⟨by simp [sampleProducts],
   (claim_C6_persist_chunking sampleProducts (by simp [sampleProducts])).1⟩

/-- **C7**: an unbounded fetch stitches backend pages into one sequence:
with page 1 of one item and a marker and page 2 of one item and no
marker, both items are yielded in page order and the second request is
issued with the first page's continuation marker; in general, for any
chain of pages, all pages' items are yielded in order. -/
theorem claim_C7_pagination_stitching :
    (∀ (α : Type) (deser : JsVal → α) (esk : Option JsVal) (i1 i2 : List JsVal) (k1 : JsVal),
      fetchGo deser esk none [⟨i1, some k1⟩, ⟨i2, none⟩] true
        = ⟨i1.map deser ++ i2.map deser, none, [(esk, none), (some k1, none)]⟩)
    ∧ (∀ (pages : List Page), chained pages →
        ∀ (α : Type) (deser : JsVal → α) (esk : Option JsVal) (t : Bool),
          (fetchGo deser esk none pages t).items
            = (pages.map (fun p => p.items.map deser)).flatten) :=
  ⟨fun _ _ _ _ _ _ => rfl,
   fun pages hc _ deser esk t => fetch_unbounded_items pages hc deser esk t⟩

theorem claim_C7_pagination_stitching_witness :
    chained [⟨[JsVal.vstr "x"], some (.vstr "k")⟩, ⟨[JsVal.vstr "y"], none⟩]
    ∧ (fetchGo (fun v => v) none none
        [⟨[JsVal.vstr "x"], some (.vstr "k")⟩, ⟨[JsVal.vstr "y"], none⟩] true).items
      = ([⟨[JsVal.vstr "x"], some (.vstr "k")⟩,
          (⟨[JsVal.vstr "y"], none⟩ : Page)].map
            (fun p => p.items.map (fun v => v))).flatten :=
  ⟨by simp [chained],
   claim_C7_pagination_stitching.2 _ (by simp [chained]) JsVal (fun v => v) none true⟩

/-- **C10**: persisting the empty sequence issues zero bulk-write calls
and succeeds; chunking never produces an empty chunk, so no backend
call is ever issued with an empty item list. -/
theorem claim_C10_persist_empty :
    persistRequests productCodec [] = .ok []
    ∧ ∀ (l : List JsVal) (n : Nat), ∀ c ∈ chunksOf l n, c ≠ [] := by
  constructor
  · rw [persistRequests, chunksOf_nil]; rfl
  · exact fun l n => chunksOf_ne_nil l n

theorem string_roundTrip (s : String) : roundTrip stringCodec (.vstr s) := rfl

theorem boolean_roundTrip (b : Bool) : roundTrip booleanCodec (.vbool b) := rfl

theorem number_roundTrip (m : Int) (e : Nat) :
    roundTrip numberCodec (.vnum (.num m e)) := by
  show Except.ok (JsVal.vnum (jsNumberOfString (jsStringOfNum (.num m e))))
      = Except.ok (JsVal.vnum (.num m e))
  rw [jsNumber_jsString_roundTrip m e]

theorem date_roundTrip (t : Int) : roundTrip dateCodec (.vdate (.num t 0)) := by
  show Except.ok (JsVal.vdate (jsToInteger (jsNumberOfString (jsStringOfNum (.num t 0)))))
      = Except.ok (JsVal.vdate (.num t 0))
  rw [jsNumber_jsString_roundTrip t 0]
  rfl

theorem optional_present_roundTrip (s : String) :
    roundTrip (optionalCodec stringCodec) (.vstr s) := rfl

theorem optional_absent_roundTrip : roundTrip (optionalCodec stringCodec) .undefined := rfl

theorem mapM_serialize_vstr (l : List String) :
    (l.map JsVal.vstr).mapM stringCodec.serialize
      = .ok (l.map (fun s => rawSerialize "S" (.vstr s))) := by
  induction l with
  | nil => rfl
  | cons s t ih =>
    rw [List.map_cons, List.mapM_cons]
    simp only [ih]
    rfl

theorem mapM_deserialize_vstr (l : List String) :
    ((l.map (fun s => rawSerialize "S" (JsVal.vstr s))).mapM
        (fun i => stringCodec.deserialize (some i)))
      = .ok (l.map JsVal.vstr) := by
  induction l with
  | nil => rfl
  | cons s t ih =>
    rw [List.map_cons, List.mapM_cons]
    simp only [ih]
    rfl

theorem list_string_roundTrip (l : List String) :
    roundTrip (listCodec stringCodec) (.vlist (l.map .vstr)) := by
  unfold roundTrip
  show (((l.map JsVal.vstr).mapM stringCodec.serialize).map
      (fun es => rawSerialize "L" (.vlist es))).bind
        (fun w => (listCodec stringCodec).deserialize (some w))
      = .ok (.vlist (l.map .vstr))
  rw [mapM_serialize_vstr l]
  show ((l.map (fun s => rawSerialize "S" (JsVal.vstr s))).mapM
      (fun i => stringCodec.deserialize (some i))).map JsVal.vlist
      = .ok (.vlist (l.map .vstr))
  rw [mapM_deserialize_vstr l]
  rfl

/-- **C2**: the round-trip law — for every supported predefined field
codec (string, number including fractional decimals, boolean, date,
optional both present and absent, list-of-string) and every value in
its natural domain, `deserialize(serialize(v)) = v`. -/
theorem claim_C2_roundTrip_law :
    (∀ s : String, roundTrip stringCodec (.vstr s))
    ∧ (∀ (m : Int) (e : Nat), roundTrip numberCodec (.vnum (.num m e)))
    ∧ (∀ b : Bool, roundTrip booleanCodec (.vbool b))
    ∧ (∀ t : Int, roundTrip dateCodec (.vdate (.num t 0)))
    ∧ (∀ s : String, roundTrip (optionalCodec stringCodec) (.vstr s))
    ∧ roundTrip (optionalCodec stringCodec) .undefined
    ∧ (∀ l : List String, roundTrip (listCodec stringCodec) (.vlist (l.map .vstr))) :=
  ⟨string_roundTrip, number_roundTrip, boolean_roundTrip, date_roundTrip,
   optional_present_roundTrip, optional_absent_roundTrip, list_string_roundTrip⟩

theorem claim_C10_persist_empty_witness :
    (([JsVal.undefined] : List JsVal) ∈ chunksOf [JsVal.undefined] 25)
    ∧ ([JsVal.undefined] : List JsVal) ≠ [] :=
  ⟨by
    rw [chunksOf_cons JsVal.undefined [] 25 (by norm_num)]
    simp [chunksOf_nil],
   claim_C10_persist_empty.2 [JsVal.undefined] 25 [JsVal.undefined] (by
    rw [chunksOf_cons JsVal.undefined [] 25 (by norm_num)]
    simp [chunksOf_nil])⟩

/-! ## Lookup request shape (C1, C8) -/

theorem except_bind_ok {ε α β : Type} (a : α) (f : α → Except ε β) :
    (Except.ok a : Except ε α) >>= f = f a := rfl

theorem except_error_bind {ε α β : Type} (e : ε) (f : α → Except ε β) :
    (Except.error e : Except ε α) >>= f = .error e := rfl

theorem except_pure_eq {ε α : Type} (a : α) : (pure a : Except ε α) = .ok a := rfl

/-- **C1 counterexample**: the claim's literal rendering is wrong — a
lookup with no sort condition builds
`KeyConditionExpression = "#dynamo_pk = :dynamo_pk"`, not `"#pk = :pk"`
(the placeholders carry the `dynamo_` namespace). -/
theorem claim_C1_counterexample :
    productDao.lookup (.vstr "cucumber") ⟨none, none, none⟩
      = .ok ⟨"ProductTable", none, none, none,
          [("#dynamo_pk", "type")],
          [(":dynamo_pk", some (rawSerialize "S" (.vstr "cucumber")))],
          "#dynamo_pk = :dynamo_pk"⟩
    ∧ ("#dynamo_pk = :dynamo_pk" : String) ≠ "#pk = :pk" :=
  ⟨rfl, by decide⟩

/-- **C1 (amended)**: the key-condition rendering with the namespaced
placeholders.  A lookup with no sort condition builds exactly
`"#dynamo_pk = :dynamo_pk"` with `#dynamo_pk` bound to the partition
key field and `:dynamo_pk` to its serialized value; a comparison
matcher appends `" and #dynamo_sk <op> :dynamo_value"`, `between`
appends `" and #dynamo_sk between :dynamo_from and :dynamo_to"` with
the two serialized bounds, and `begins_with` appends
`" and begins_with(#dynamo_sk, :dynamo_value)"`. -/
theorem claim_C1_key_condition_rendering (idx : DynamoIndexM) (pkVal : JsVal)
    (limit : Option Nat) (startFrom : Option JsVal) (pkv : Option JsVal)
    (hpk : idx.serializeValue idx.partitionKey pkVal = .ok pkv) :
    idx.lookup pkVal ⟨limit, startFrom, none⟩
      = .ok ⟨idx.tableName, idx.name, startFrom, limit,
          [("#dynamo_pk", idx.partitionKey)],
          [(":dynamo_pk", pkv)],
          "#dynamo_pk = :dynamo_pk"⟩
    ∧ (∀ (m : Matcher) (v : JsVal) (sv : Option JsVal),
        m ≠ .between → m ≠ .begins_with →
        idx.serializeValue idx.sortKey v = .ok sv →
        idx.lookup pkVal ⟨limit, startFrom, some ⟨m, v⟩⟩
          = .ok ⟨idx.tableName, idx.name, startFrom, limit,
              [("#dynamo_pk", idx.partitionKey), ("#dynamo_sk", idx.sortKey)],
              [(":dynamo_pk", pkv), (":dynamo_value", sv)],
              "#dynamo_pk = :dynamo_pk and "
                ++ ("#dynamo_sk " ++ m.render ++ " :" ++ "dynamo_value")⟩)
    ∧ (∀ (v : JsVal) (slo shi : Option JsVal),
        idx.serializeValue idx.sortKey (jsIdx v 0) = .ok slo →
        idx.serializeValue idx.sortKey (jsIdx v 1) = .ok shi →
        idx.lookup pkVal ⟨limit, startFrom, some ⟨.between, v⟩⟩
          = .ok ⟨idx.tableName, idx.name, startFrom, limit,
              [("#dynamo_pk", idx.partitionKey), ("#dynamo_sk", idx.sortKey)],
              [(":dynamo_pk", pkv), (":dynamo_from", slo), (":dynamo_to", shi)],
              "#dynamo_pk = :dynamo_pk and #dynamo_sk between :dynamo_from and :dynamo_to"⟩)
    ∧ (∀ (v : JsVal) (sv : Option JsVal),
        idx.serializeValue idx.sortKey v = .ok sv →
        idx.lookup pkVal ⟨limit, startFrom, some ⟨.begins_with, v⟩⟩
          = .ok ⟨idx.tableName, idx.name, startFrom, limit,
              [("#dynamo_pk", idx.partitionKey), ("#dynamo_sk", idx.sortKey)],
              [(":dynamo_pk", pkv), (":dynamo_value", sv)],
              "#dynamo_pk = :dynamo_pk and begins_with(#dynamo_sk, :dynamo_value)"⟩) := by
  refine ⟨?_, ?_, ?_, ?_⟩
  · simp only [DynamoIndexM.lookup, hpk, except_bind_ok, condValsE, except_pure_eq,
      condNames, kceOf]
    rfl
  · intro m v sv hb hbw hsv
    simp only [DynamoIndexM.lookup, hpk, except_bind_ok, condValsE,
      DynamoIndexM.attributeValues, if_neg hb, hsv, except_pure_eq,
      condNames, kceOf, conditionToString, if_neg hbw]
    rfl
  · intro v slo shi hlo hhi
    simp only [DynamoIndexM.lookup, hpk, except_bind_ok, condValsE,
      DynamoIndexM.attributeValues, if_pos rfl, hlo, hhi, except_pure_eq,
      condNames, kceOf, conditionToString]
    rfl
  · intro v sv hsv
    simp only [DynamoIndexM.lookup, hpk, except_bind_ok, condValsE,
      DynamoIndexM.attributeValues, hsv, except_pure_eq,
      condNames, kceOf, conditionToString, if_pos rfl]
    rfl

theorem claim_C1_key_condition_rendering_witness :
    productDao.serializeValue productDao.partitionKey (.vstr "cheese")
        = .ok (some (rawSerialize "S" (.vstr "cheese")))
    ∧ productDao.lookup (.vstr "cheese") ⟨none, none, none⟩
        = .ok ⟨"ProductTable", none, none, none,
            [("#dynamo_pk", productDao.partitionKey)],
            [(":dynamo_pk", some (rawSerialize "S" (.vstr "cheese")))],
            "#dynamo_pk = :dynamo_pk"⟩
    ∧ productDao.lookup (.vstr "cheese") ⟨none, none, some ⟨.lt, .vnum (.num 0 0)⟩⟩
        = .ok ⟨"ProductTable", none, none, none,
            [("#dynamo_pk", productDao.partitionKey), ("#dynamo_sk", productDao.sortKey)],
            [(":dynamo_pk", some (rawSerialize "S" (.vstr "cheese"))),
             (":dynamo_value", some (rawSerialize "N" (.vstr "0")))],
            "#dynamo_pk = :dynamo_pk and "
              ++ ("#dynamo_sk " ++ Matcher.lt.render ++ " :" ++ "dynamo_value")⟩ :=
  ⟨rfl,
   (claim_C1_key_condition_rendering productDao (.vstr "cheese") none none
     (some (rawSerialize "S" (.vstr "cheese"))) rfl).1,
   (claim_C1_key_condition_rendering productDao (.vstr "cheese") none none
     (some (rawSerialize "S" (.vstr "cheese"))) rfl).2.1 .lt (.vnum (.num 0 0))
     (some (rawSerialize "N" (.vstr "0"))) (by decide) (by decide) rfl⟩

theorem attributeValues_keys (idx : DynamoIndexM) (c : Condition)
    (vals : List (String × Option JsVal)) (h : idx.attributeValues c = .ok vals) :
    ∀ p ∈ vals, p.1 = ":dynamo_value" ∨ p.1 = ":dynamo_from" ∨ p.1 = ":dynamo_to" := by
  unfold DynamoIndexM.attributeValues at h
  by_cases hm : c.matcher = .between
  · rw [if_pos hm] at h
    cases hlo : idx.serializeValue idx.sortKey (jsIdx c.value 0) with
    | error e =>
      rw [hlo, except_error_bind] at h
      cases h
    | ok slo =>
      rw [hlo, except_bind_ok] at h
      cases hhi : idx.serializeValue idx.sortKey (jsIdx c.value 1) with
      | error e =>
        rw [hhi, except_error_bind] at h
        cases h
      | ok shi =>
        rw [hhi, except_bind_ok, except_pure_eq] at h
        cases h
        intro p hp
        rcases List.mem_cons.mp hp with rfl | hp2
        · right; left; rfl
        · rcases List.mem_singleton.mp hp2 with rfl
          right; right; rfl
  · rw [if_neg hm] at h
    cases hv : idx.serializeValue idx.sortKey c.value with
    | error e =>
      rw [hv, except_error_bind] at h
      cases h
    | ok sv =>
      rw [hv, except_bind_ok, except_pure_eq] at h
      cases h
      intro p hp
      rcases List.mem_singleton.mp hp with rfl
      left; rfl

/-- **C8**: every expression-attribute-name placeholder and every
expression-attribute-value placeholder the engine introduces in a built
`Query` request carries the fixed `dynamo_` namespace: the names are
among `#dynamo_pk`/`#dynamo_sk`, the value keys among
`:dynamo_pk`/`:dynamo_value`/`:dynamo_from`/`:dynamo_to`, and every
placeholder starts with `#dynamo_` resp. `:dynamo_`, so none can
collide with a caller-chosen name introduced via the override hook. -/
theorem claim_C8_placeholder_namespacing (idx : DynamoIndexM) (pkVal : JsVal)
    (opts : LookupOptions) (req : QueryReq)
    (h : idx.lookup pkVal opts = .ok req) :
    (∀ p ∈ req.ExpressionAttributeNames, p.1 = "#dynamo_pk" ∨ p.1 = "#dynamo_sk")
    ∧ (∀ p ∈ req.ExpressionAttributeValues,
        p.1 = ":dynamo_pk" ∨ p.1 = ":dynamo_value" ∨ p.1 = ":dynamo_from" ∨ p.1 = ":dynamo_to")
    ∧ (∀ p ∈ req.ExpressionAttributeNames, p.1.data.take 8 = "#dynamo_".data)
    ∧ (∀ p ∈ req.ExpressionAttributeValues, p.1.data.take 8 = ":dynamo_".data) := by
  unfold DynamoIndexM.lookup at h
  cases hpk : idx.serializeValue idx.partitionKey pkVal with
  | error e =>
    rw [hpk, except_error_bind] at h
    cases h
  | ok pkv =>
    rw [hpk, except_bind_ok] at h
    cases hcv : condValsE idx opts.condition with
    | error e =>
      rw [hcv, except_error_bind] at h
      cases h
    | ok condVals =>
      rw [hcv, except_bind_ok, except_pure_eq] at h
      cases h
      have hnames : ∀ p ∈ ("#dynamo_pk", idx.partitionKey) :: condNames idx opts.condition,
          p.1 = "#dynamo_pk" ∨ p.1 = "#dynamo_sk" := by
        intro p hp
        rcases List.mem_cons.mp hp with rfl | hp2
        · left; rfl
        · cases hc : opts.condition with
          | none => rw [hc] at hp2; cases hp2
          | some c =>
            rw [hc] at hp2
            rcases List.mem_singleton.mp hp2 with rfl
            right; rfl
      have hvals : ∀ p ∈ (":dynamo_pk", pkv) :: condVals,
          p.1 = ":dynamo_pk" ∨ p.1 = ":dynamo_value" ∨ p.1 = ":dynamo_from"
            ∨ p.1 = ":dynamo_to" := by
        intro p hp
        rcases List.mem_cons.mp hp with rfl | hp2
        · left; rfl
        · cases hc : opts.condition with
          | none =>
            rw [hc] at hcv
            rw [show condValsE idx none = .ok [] from rfl] at hcv
            cases hcv
            cases hp2
          | some c =>
            rw [hc] at hcv
            right
            exact attributeValues_keys idx c condVals hcv p hp2
      refine ⟨hnames, hvals, ?_, ?_⟩
      · intro p hp
        rcases hnames p hp with h1 | h1 <;> rw [h1] <;> decide
      · intro p hp
        rcases hvals p hp with h1 | h1 | h1 | h1 <;> rw [h1] <;> decide

theorem claim_C8_placeholder_namespacing_witness :
    productDao.lookup (.vstr "x") ⟨none, none, none⟩
      = .ok ⟨"ProductTable", none, none, none, [("#dynamo_pk", "type")],
          [(":dynamo_pk", some (rawSerialize "S" (.vstr "x")))], "#dynamo_pk = :dynamo_pk"⟩
    ∧ (∀ p ∈ [(("#dynamo_pk" : String), ("type" : String))],
        (p.1 = "#dynamo_pk" ∨ p.1 = "#dynamo_sk")) :=
  ⟨rfl,
   (claim_C8_placeholder_namespacing productDao (.vstr "x") ⟨none, none, none⟩ _ rfl).1⟩

/-- **C4 counterexample**: deserializing a wire map lacking an entry for
a field whose codec is the plain string codec does **not** succeed by
passing `undefined` to the construction function — reading
`undefined["S"]` throws a `TypeError` which `deserializeField` rewraps
as a `SerializationError`. -/
theorem claim_C4_counterexample :
    RecordCodec.deserialize ⟨[("req", some stringCodec)], fun init => .vobj init⟩
        (some (rawSerialize "M" (.vobj [])))
      = .error (.serializationError "req") := rfl

theorem initStep_skip (a : JsVal) (acc : List (String × JsVal)) (f : String)
    (codec? : Option FieldCodec) (inner : FieldCodec)
    (hcodec : codec? = some (optionalCodec inner) ∨ codec? = none)
    (habsent : payloadIndex (objGet "M" a) f = .ok none) :
    initStep a acc (f, codec?) = .ok acc := by
  unfold initStep
  simp only []
  rw [habsent, except_bind_ok]
  rcases hcodec with rfl | rfl
  · rfl
  · rfl

theorem foldlM_initStep_skip (a : JsVal) (f : String)
    (codec? : Option FieldCodec) (inner : FieldCodec)
    (hcodec : codec? = some (optionalCodec inner) ∨ codec? = none)
    (habsent : payloadIndex (objGet "M" a) f = .ok none)
    (pre : List (String × Option FieldCodec)) :
    ∀ (post : List (String × Option FieldCodec)) (acc : List (String × JsVal)),
      (pre ++ (f, codec?) :: post).foldlM (initStep a) acc
        = (pre ++ post).foldlM (initStep a) acc := by
  induction pre with
  | nil =>
    intro post acc
    simp only [List.nil_append, List.foldlM_cons]
    rw [initStep_skip a acc f codec? inner hcodec habsent, except_bind_ok]
  | cons p t ih =>
    intro post acc
    simp only [List.cons_append, List.foldlM_cons]
    exact bind_congr (fun acc2 => ih post acc2)

/-- **C4 (amended)**: a field absent from the wire map decodes to
absence (`undefined`) exactly when its codec is the optional codec or
the field is unmapped; deserialization then proceeds as if the field
were not declared at all, leaving required-ness to the construction
function.  (For a plain codec such as string or number, deserialization
of a map lacking the field instead throws — see the counterexample.) -/
theorem claim_C4_absent_field_skipped (pre post : List (String × Option FieldCodec))
    (factory : List (String × JsVal) → JsVal) (fields : List (String × JsVal))
    (f : String) (inner : FieldCodec) (codec? : Option FieldCodec)
    (hcodec : codec? = some (optionalCodec inner) ∨ codec? = none)
    (habsent : fields.lookup f = none) :
    RecordCodec.deserialize ⟨pre ++ (f, codec?) :: post, factory⟩
        (some (rawSerialize "M" (.vobj fields)))
      = RecordCodec.deserialize ⟨pre ++ post, factory⟩
          (some (rawSerialize "M" (.vobj fields))) := by
  have habs2 : payloadIndex (objGet "M" (rawSerialize "M" (.vobj fields))) f = .ok none := by
    show Except.ok (fields.lookup f) = .ok none
    rw [habsent]
  show ((pre ++ (f, codec?) :: post).foldlM
        (initStep (rawSerialize "M" (.vobj fields))) []).map factory
    = ((pre ++ post).foldlM (initStep (rawSerialize "M" (.vobj fields))) []).map factory
  rw [foldlM_initStep_skip (rawSerialize "M" (.vobj fields)) f codec? inner hcodec habs2
    pre post []]

theorem claim_C4_absent_field_skipped_witness :
    ((some (optionalCodec stringCodec) : Option FieldCodec)
        = some (optionalCodec stringCodec)
      ∨ (some (optionalCodec stringCodec) : Option FieldCodec) = none)
    ∧ ([(("a" : String), rawSerialize "S" (.vstr "x"))].lookup "b" = none)
    ∧ RecordCodec.deserialize
        ⟨[("a", some stringCodec)] ++ ("b", some (optionalCodec stringCodec)) :: [],
         fun init => .vobj init⟩
        (some (rawSerialize "M" (.vobj [("a", rawSerialize "S" (.vstr "x"))])))
      = RecordCodec.deserialize ⟨[("a", some stringCodec)] ++ [], fun init => .vobj init⟩
          (some (rawSerialize "M" (.vobj [("a", rawSerialize "S" (.vstr "x"))]))) :=
  ⟨Or.inl rfl, rfl,
   claim_C4_absent_field_skipped [("a", some stringCodec)] []
     (fun init => .vobj init) [("a", rawSerialize "S" (.vstr "x"))]
     "b" stringCodec (some (optionalCodec stringCodec)) (Or.inl rfl) rfl⟩

theorem assign_nonabsent (acc : List (String × JsVal)) (f : String) (v : JsVal)
    (hv : v ≠ .undefined) : assign acc f v = acc ++ [(f, v)] := by
  cases v
  case undefined => exact absurd rfl hv
  all_goals rfl

theorem foldlM_initStep_names (fields : List (String × JsVal))
    (sers : List (String × Option FieldCodec)) :
    ∀ (acc : List (String × JsVal)),
      (∀ p ∈ sers, ∃ v, v ≠ JsVal.undefined
        ∧ deserializeField p.1 p.2 (fields.lookup p.1) = .ok v) →
      ∃ init, sers.foldlM (initStep (rawSerialize "M" (.vobj fields))) acc = .ok init
        ∧ init.map Prod.fst = acc.map Prod.fst ++ sers.map Prod.fst := by
  induction sers with
  | nil => exact fun acc _ => ⟨acc, rfl, by simp⟩
  | cons p t ih =>
    intro acc h
    obtain ⟨v, hv, hd⟩ := h p (List.mem_cons_self p t)
    have hstep : initStep (rawSerialize "M" (.vobj fields)) acc p
        = .ok (acc ++ [(p.1, v)]) := by
      unfold initStep
      rw [show payloadIndex (objGet "M" (rawSerialize "M" (.vobj fields))) p.1
          = .ok (fields.lookup p.1) from rfl, except_bind_ok, hd, except_bind_ok,
        assign_nonabsent acc p.1 v hv]
      rfl
    rw [List.foldlM_cons, hstep, except_bind_ok]
    obtain ⟨init, hinit, hnames⟩ :=
      ih (acc ++ [(p.1, v)]) (fun q hq => h q (List.mem_cons_of_mem p hq))
    refine ⟨init, hinit, ?_⟩
    rw [hnames]
    simp

/-- **C9**: a local index built with an explicit projection `P` has a
sub-codec whose field list is exactly the sanitized projection
(`P` minus key fields) followed by the implicit key fields (table
partition key, table sort key, index sort key), each reusing the
parent's codec for that field (no new codecs are derived); and, for a
wire item whose mapped fields all decode to defined values, the decoded
record carries exactly those field names, in that order, and no
others. -/
theorem claim_C9_local_index_projection (dao : DynamoIndexM) (name spec : String)
    (P : List String) (fields : List (String × JsVal))
    (h : ∀ p ∈ (dao.localIndex name spec (some P)).serializer.serializers,
        ∃ v, v ≠ JsVal.undefined ∧ deserializeField p.1 p.2 (fields.lookup p.1) = .ok v) :
    (dao.localIndex name spec (some P)).serializer.serializers
      = ((P.filter (fun n => !((arrayable dao.keyspec ++ [spec]).contains n)))
          ++ (arrayable dao.keyspec ++ [spec])).map
            (fun k => (k, (dao.serializer.serializers.lookup k).join))
    ∧ ∃ init,
        (dao.localIndex name spec (some P)).serializer.deserialize
            (some (rawSerialize "M" (.vobj fields)))
          = .ok (.vobj init)
        ∧ init.map Prod.fst
          = (P.filter (fun n => !((arrayable dao.keyspec ++ [spec]).contains n)))
              ++ (arrayable dao.keyspec ++ [spec]) := by
  constructor
  · rfl
  · obtain ⟨init, hinit, hnames⟩ :=
      foldlM_initStep_names fields
        ((dao.localIndex name spec (some P)).serializer.serializers) [] h
    refine ⟨init, ?_, ?_⟩
    · show (buildInit ((dao.localIndex name spec (some P)).serializer.serializers)
          (rawSerialize "M" (.vobj fields))).map
            (dao.localIndex name spec (some P)).serializer.factory
        = .ok (.vobj init)
      rw [buildInit, hinit]
      rfl
    · rw [hnames]
      show (((P.filter (fun n => !((arrayable dao.keyspec ++ [spec]).contains n)))
          ++ (arrayable dao.keyspec ++ [spec])).map
            (fun k => (k, (dao.serializer.serializers.lookup k).join))).map Prod.fst
        = _
      have hcomp : (Prod.fst ∘ fun k : String => (k, (dao.serializer.serializers.lookup k).join))
          = fun k : String => k := by
        funext k
        rfl
      rw [List.map_map, hcomp, List.map_id']

theorem claim_C9_local_index_projection_witness :
    (∀ p ∈ (wideDao.localIndex "priceIndex" "price" (some ["label"])).serializer.serializers,
      ∃ v, v ≠ JsVal.undefined
        ∧ deserializeField p.1 p.2 (wideItemFields.lookup p.1) = .ok v)
    ∧ (wideDao.localIndex "priceIndex" "price" (some ["label"])).serializer.serializers
        = ((["label"].filter
              (fun n => !((arrayable wideDao.keyspec ++ ["price"]).contains n)))
            ++ (arrayable wideDao.keyspec ++ ["price"])).map
              (fun k => (k, (wideDao.serializer.serializers.lookup k).join)) := by
  have hmem : ∀ p ∈ (wideDao.localIndex "priceIndex" "price"
      (some ["label"])).serializer.serializers,
      ∃ v, v ≠ JsVal.undefined
        ∧ deserializeField p.1 p.2 (wideItemFields.lookup p.1) = .ok v := by
    intro p hp
    have hsers : (wideDao.localIndex "priceIndex" "price"
        (some ["label"])).serializer.serializers
        = [("label", some stringCodec), ("type", some stringCodec),
           ("code", some numberCodec), ("price", some numberCodec)] := rfl
    rw [hsers] at hp
    rcases List.mem_cons.mp hp with rfl | hp
    · exact ⟨.vstr "x", by simp, rfl⟩
    rcases List.mem_cons.mp hp with rfl | hp
    · exact ⟨.vstr "t", by simp, rfl⟩
    rcases List.mem_cons.mp hp with rfl | hp
    · exact ⟨.vnum (.num 1 0), by simp, rfl⟩
    rcases List.mem_singleton.mp hp with rfl
    exact ⟨.vnum (.num 2 0), by simp, rfl⟩
  exact ⟨hmem,
    (claim_C9_local_index_projection wideDao "priceIndex" "price" ["label"]
      wideItemFields hmem).1⟩

end AwsDynamo
